import Mathlib

/-!
Verification of the best-route trade selection core of
`src/hooks/v3/useBestV3Trade.ts` (quickswap-interface-v2).

The pure part of the two hooks `useBestV3TradeExactIn` / `useBestV3TradeExactOut`
is embedded shallowly: the hook inputs that the `useMemo` body reads
(the fixed `CurrencyAmount`, the counter currency, the `loading` flag of
`useAllV3Routes`, the route list, and the index-aligned `CallState` batch
returned by `useSingleContractMultipleData`) become explicit arguments, and
the body becomes a pure function returning the `(state, trade)` pair.

Amounts (`BigNumber` quotients of `CurrencyAmount`s) are arbitrary-precision
non-negative integers, embedded as `Nat`.  Currencies and routes are opaque
type parameters.
-/

namespace BestV3Trade

/-- The five trade states of the source `V3TradeState` enum. -/
inductive V3TradeState where
  | LOADING
  | INVALID
  | NO_ROUTE_FOUND
  | VALID
  | SYNCING
deriving DecidableEq

/-- `TradeType` from the sdk-core, as used by `Trade.createUncheckedTrade`. -/
inductive TradeType where
  | EXACT_INPUT
  | EXACT_OUTPUT
deriving DecidableEq

/-- A `CurrencyAmount`: a currency together with its raw quotient
(arbitrary-precision non-negative integer). -/
structure CurrencyAmount (γ : Type) where
  currency : γ
  quotient : Nat
deriving DecidableEq

/-- One entry of the `CallState` batch returned by
`useSingleContractMultipleData` as consumed by the selector: the optional
quoted amount (`result.amountOut` resp. `result.amountIn`) and the three
flags the selector reads. -/
structure QuoteResult where
  result : Option Nat
  loading : Bool
  syncing : Bool
  valid : Bool
deriving DecidableEq

/-- The trade object built by `Trade.createUncheckedTrade` with the fields the
selector populates: winning route, trade type, input amount and output
amount. -/
structure Trade (γ ρ : Type) where
  route : ρ
  tradeType : TradeType
  inputAmount : CurrencyAmount γ
  outputAmount : CurrencyAmount γ
deriving DecidableEq

/-- The reducer callback of the `quotesResults.reduce` call, parameterized by
the comparison that decides whether the incoming quoted amount replaces the
current best (`currentBest.amountOut.lt(result.amountOut)` for exact-in,
`currentBest.amountIn.gt(result.amountIn)` for exact-out).  The accumulator is
the `{ bestRoute, amountOut }` (resp. `{ bestRoute, amountIn }`) pair, both
fields `null` initially. -/
def quoteStep {ρ : Type} (replace : Nat → Nat → Bool)
    (acc : Option ρ × Option Nat) (rq : ρ × QuoteResult) :
    Option ρ × Option Nat :=
  match rq.2.result, acc.2 with
  | none, _ => acc
  | some amt, none => (some rq.1, some amt)
  | some amt, some best =>
      if replace best amt then (some rq.1, some amt) else acc

/-- Exact-in replacement test: the source replaces the current best when
`currentBest.amountOut.lt(result.amountOut)`, i.e. strictly larger output. -/
def replaceExactIn : Nat → Nat → Bool :=
  fun best amt => decide (best < amt)

/-- Exact-out replacement test: the source replaces the current best when
`currentBest.amountIn.gt(result.amountIn)`, i.e. strictly smaller input. -/
def replaceExactOut : Nat → Nat → Bool :=
  fun best amt => decide (amt < best)

/-- Pure body of the `useMemo` in `useBestV3TradeExactIn`:
INVALID when `amountIn` or `currencyOut` is absent; LOADING when the route
enumeration is loading or any quote result is loading; otherwise reduce the
index-aligned (route, result) pairs to the best (maximum) output amount;
NO_ROUTE_FOUND when the reduction found nothing, else SYNCING/VALID with the
constructed trade. -/
def useBestV3TradeExactIn {γ ρ : Type}
    (amountIn : Option (CurrencyAmount γ)) (currencyOut : Option γ)
    (routesLoading : Bool) (routes : List ρ)
    (quotesResults : List QuoteResult) :
    V3TradeState × Option (Trade γ ρ) :=
  match amountIn, currencyOut with
  | some aIn, some cOut =>
    if routesLoading || quotesResults.any fun q => q.loading then
      (V3TradeState.LOADING, none)
    else
      match (routes.zip quotesResults).foldl (quoteStep replaceExactIn)
          (none, none) with
      | (some bestRoute, some amountOut) =>
          ((if quotesResults.any fun q => q.syncing then V3TradeState.SYNCING
            else V3TradeState.VALID),
           some ⟨bestRoute, TradeType.EXACT_INPUT, aIn, ⟨cOut, amountOut⟩⟩)
      | _ => (V3TradeState.NO_ROUTE_FOUND, none)
  | _, _ => (V3TradeState.INVALID, none)

/-- Pure body of the `useMemo` in `useBestV3TradeExactOut`:
INVALID when `amountOut` or `currencyIn` is absent or any quote result has
`valid` false; LOADING when the route enumeration is loading or any quote
result is loading; otherwise reduce to the best (minimum) input amount;
NO_ROUTE_FOUND when the reduction found nothing, else SYNCING/VALID with the
constructed trade. -/
def useBestV3TradeExactOut {γ ρ : Type}
    (currencyIn : Option γ) (amountOut : Option (CurrencyAmount γ))
    (routesLoading : Bool) (routes : List ρ)
    (quotesResults : List QuoteResult) :
    V3TradeState × Option (Trade γ ρ) :=
  match amountOut, currencyIn with
  | some aOut, some cIn =>
    if quotesResults.any fun q => !q.valid then
      (V3TradeState.INVALID, none)
    else if routesLoading || quotesResults.any fun q => q.loading then
      (V3TradeState.LOADING, none)
    else
      match (routes.zip quotesResults).foldl (quoteStep replaceExactOut)
          (none, none) with
      | (some bestRoute, some amountIn) =>
          ((if quotesResults.any fun q => q.syncing then V3TradeState.SYNCING
            else V3TradeState.VALID),
           some ⟨bestRoute, TradeType.EXACT_OUTPUT, ⟨cIn, amountIn⟩, aOut⟩)
      | _ => (V3TradeState.NO_ROUTE_FOUND, none)
  | _, _ => (V3TradeState.INVALID, none)

/-- One element of an encoded path: an asset (a packed token address) or a
pool fee tier (a packed uint24). -/
inductive PathToken (γ : Type) where
  | asset (a : γ)
  | fee (f : Nat)
deriving DecidableEq

/-- A route as the encoder consumes it: the ordered token path from the start
asset to the end asset and the fee tier of each hop
(`tokenPath.length = fees.length + 1` for a well-formed route). -/
structure Route (γ : Type) where
  tokenPath : List γ
  fees : List Nat
deriving DecidableEq

/-- Interleave the token path with the hop fees:
`token0, fee0, token1, fee1, ..., tokenN`. -/
def interleavePath {γ : Type} : List γ → List Nat → List (PathToken γ)
  | t :: ts, f :: fs => PathToken.asset t :: PathToken.fee f :: interleavePath ts fs
  | ts, [] => ts.map PathToken.asset
  | [], _ => []

/-- Modelled from the spec: `encodeRouteToPath` is imported from
`v3lib/utils/encodeRouteToPath`, which is not under `src/`; per §4.2 of the
spec the encoder produces the canonical packed asset/fee sequence ordered
start→end for exact-input, and the same sequence reversed (end→start) when
the `exactOutput` flag is set.  Bytes are embedded at token granularity. -/
def encodeRouteToPath {γ : Type} (route : Route γ) (exactOutput : Bool) :
    List (PathToken γ) :=
  if exactOutput then (interleavePath route.tokenPath route.fees).reverse
  else interleavePath route.tokenPath route.fees

/-- Inverse test helper: recover the ordered asset sequence of an encoded
path. -/
def decodePathAssets {γ : Type} (p : List (PathToken γ)) : List γ :=
  p.filterMap fun t =>
    match t with
    | PathToken.asset a => some a
    | PathToken.fee _ => none

/-- Inverse test helper: recover the ordered fee sequence of an encoded
path. -/
def decodePathFees {γ : Type} (p : List (PathToken γ)) : List Nat :=
  p.filterMap fun t =>
    match t with
    | PathToken.asset _ => none
    | PathToken.fee f => some f

/-- The `quoteExactInInputs` array of `useBestV3TradeExactIn`: one
`[encodeRouteToPath(route, false), amount-as-hex]` entry per route (the hex
string is embedded as the quotient it denotes, `undefined` as `none`). -/
def quoteExactInInputs {γ : Type} (routes : List (Route γ))
    (amountIn : Option (CurrencyAmount γ)) :
    List (List (PathToken γ) × Option Nat) :=
  routes.map fun route =>
    (encodeRouteToPath route false, amountIn.map fun a => a.quotient)

/-- The `quoteExactOutInputs` array of `useBestV3TradeExactOut`: one
`[encodeRouteToPath(route, true), amount-as-hex]` entry per route. -/
def quoteExactOutInputs {γ : Type} (routes : List (Route γ))
    (amountOut : Option (CurrencyAmount γ)) :
    List (List (PathToken γ) × Option Nat) :=
  routes.map fun route =>
    (encodeRouteToPath route true, amountOut.map fun a => a.quotient)

/-- `ChainId.ZKEVM` of the quickswap sdk fork (Polygon zkEVM). -/
def ChainId_ZKEVM : Nat := 1101

/-- The source `QUOTE_GAS_OVERRIDES` map: `{ [ChainId.ZKEVM]: 100_000_000 }`. -/
def QUOTE_GAS_OVERRIDES (chainId : Nat) : Option Nat :=
  if chainId = ChainId_ZKEVM then some 100000000 else none

/-- The source `DEFAULT_GAS_QUOTE` constant. -/
def DEFAULT_GAS_QUOTE : Nat := 2000000

/-- The `gasRequired` option the hooks compute for the dispatcher:
`chainId ? QUOTE_GAS_OVERRIDES[chainId] ?? DEFAULT_GAS_QUOTE : undefined`. -/
def gasRequired (chainId : Option Nat) : Option Nat :=
  match chainId with
  | some c => some ((QUOTE_GAS_OVERRIDES c).getD DEFAULT_GAS_QUOTE)
  | none => none

/-- One dispatched quote request: encoded path, amount, and the gas ceiling
attached to the call. -/
structure QuoteRequest (γ : Type) where
  path : List (PathToken γ)
  amount : Option Nat
  gasRequired : Option Nat
deriving DecidableEq

/-- Modelled from the spec: `useSingleContractMultipleData`
(`state/multicall/v3/hooks`) is not under `src/`; per §4.3 of the spec the
dispatcher issues one request per input, index-aligned, attaching the
`gasRequired` option of the batch to every request. -/
def dispatchRequests {γ : Type} (inputs : List (List (PathToken γ) × Option Nat))
    (gas : Option Nat) : List (QuoteRequest γ) :=
  inputs.map fun pa => ⟨pa.1, pa.2, gas⟩

/-- Swap direction tag for the generic selector the spec calls for. -/
inductive SwapDir where
  | exactIn
  | exactOut
deriving DecidableEq

/-- Direction-specific replacement test of the generic selector. -/
def replaceFor : SwapDir → Nat → Nat → Bool
  | SwapDir.exactIn => replaceExactIn
  | SwapDir.exactOut => replaceExactOut

/-- Direction-specific trade construction of the generic selector: the fixed
leg keeps the given amount, the opposite leg gets the quoted amount. -/
def mkTrade {γ ρ : Type} :
    SwapDir → ρ → CurrencyAmount γ → γ → Nat → Trade γ ρ
  | SwapDir.exactIn, r, fixed, counter, won =>
      ⟨r, TradeType.EXACT_INPUT, fixed, ⟨counter, won⟩⟩
  | SwapDir.exactOut, r, fixed, counter, won =>
      ⟨r, TradeType.EXACT_OUTPUT, ⟨counter, won⟩, fixed⟩

/-- The generic selector the spec describes (§4.4 and §9): one implementation
parameterized by swap direction — INVALID exactly when the fixed amount or
the counter-asset is absent, then LOADING, then the stable left-to-right
reduction (maximize for exact-in, minimize for exact-out, first-seen wins
ties), then NO_ROUTE_FOUND or SYNCING/VALID. -/
def genericBestTrade {γ ρ : Type} (dir : SwapDir)
    (fixedAmount : Option (CurrencyAmount γ)) (counterAsset : Option γ)
    (routesLoading : Bool) (routes : List ρ)
    (quotesResults : List QuoteResult) :
    V3TradeState × Option (Trade γ ρ) :=
  match fixedAmount, counterAsset with
  | some fixed, some counter =>
    if routesLoading || quotesResults.any fun q => q.loading then
      (V3TradeState.LOADING, none)
    else
      match (routes.zip quotesResults).foldl (quoteStep (replaceFor dir))
          (none, none) with
      | (some bestRoute, some won) =>
          ((if quotesResults.any fun q => q.syncing then V3TradeState.SYNCING
            else V3TradeState.VALID),
           some (mkTrade dir bestRoute fixed counter won))
      | _ => (V3TradeState.NO_ROUTE_FOUND, none)
  | _, _ => (V3TradeState.INVALID, none)

/-- The second component of the accumulator never becomes `none` again: the
fold result has a `none` amount exactly when the initial accumulator had one
and no processed quote result is present. -/
lemma foldl_quoteStep_eq_none {ρ : Type} (rep : Nat → Nat → Bool)
    (l : List (ρ × QuoteResult)) :
    ∀ acc : Option ρ × Option Nat,
      (l.foldl (quoteStep rep) acc).2 = none ↔
        (acc.2 = none ∧ ∀ rq ∈ l, rq.2.result = none) := by
  induction l with
  | nil => intro acc; simp
  | cons x xs ih =>
    intro acc
    rw [List.foldl_cons, ih]
    rcases acc with ⟨r0, a0⟩
    rcases hres : x.2.result with _ | amt
    · simp [quoteStep, hres, List.forall_mem_cons]
    · rcases a0 with _ | best
      · simp [quoteStep, hres, List.forall_mem_cons]
      · rcases hrep : rep best amt with _ | _ <;>
          simp [quoteStep, hres, hrep, List.forall_mem_cons]

/-- The two accumulator components are `some` together throughout the fold. -/
lemma foldl_quoteStep_shape {ρ : Type} (rep : Nat → Nat → Bool)
    (l : List (ρ × QuoteResult)) :
    ∀ acc : Option ρ × Option Nat, acc.1.isSome = acc.2.isSome →
      (l.foldl (quoteStep rep) acc).1.isSome =
        (l.foldl (quoteStep rep) acc).2.isSome := by
  induction l with
  | nil => intro acc h; simpa using h
  | cons x xs ih =>
    intro acc h
    rw [List.foldl_cons]
    apply ih
    rcases hres : x.2.result with _ | amt
    · simpa [quoteStep, hres] using h
    · rcases acc with ⟨r0, a0⟩
      rcases a0 with _ | best
      · simp [quoteStep, hres]
      · rcases hrep : rep best amt with _ | _
        · simpa [quoteStep, hres, hrep] using h
        · simp [quoteStep, hres, hrep]

/-- The fold from the empty accumulator yields either nothing or a pair of
`some`s. -/
lemma foldl_quoteStep_cases {ρ : Type} (rep : Nat → Nat → Bool)
    (l : List (ρ × QuoteResult)) :
    l.foldl (quoteStep rep) (none, none) = (none, none) ∨
      ∃ r a, l.foldl (quoteStep rep) (none, none) = (some r, some a) := by
  have h := foldl_quoteStep_shape rep l (none, none) rfl
  rcases hf : l.foldl (quoteStep rep) (none, none) with ⟨r0, a0⟩
  rw [hf] at h
  rcases r0 with _ | r <;> rcases a0 with _ | a <;> simp_all

/-- Full characterization of a successful fold: the winner is either the
initial accumulator (and then no processed amount beats it), or the first
element of the list attaining the final amount — every earlier present
amount would have been replaced by it, every later one fails the replacement
test against it.  `rep best amt = true` means `amt` replaces `best`.  The two
hypotheses are transitivity facts of the replacement order. -/
lemma foldl_quoteStep_win {ρ : Type} (rep : Nat → Nat → Bool)
    (hTr : ∀ x y z : Nat, rep x y = true → rep y z = true → rep x z = true)
    (hTF : ∀ x y z : Nat, rep x y = false → rep x z = true → rep y z = true)
    (l : List (ρ × QuoteResult)) :
    ∀ (acc : Option ρ × Option Nat) (r : Option ρ) (a : Nat),
      l.foldl (quoteStep rep) acc = (r, some a) →
      (acc = (r, some a) ∧
        ∀ rq ∈ l, ∀ b, rq.2.result = some b → rep a b = false) ∨
      (∃ l1 rwin q l2, l = l1 ++ (rwin, q) :: l2 ∧ r = some rwin ∧
        q.result = some a ∧
        (∀ b, acc.2 = some b → rep b a = true) ∧
        (∀ rq ∈ l1, ∀ b, rq.2.result = some b → rep b a = true) ∧
        (∀ rq ∈ l2, ∀ b, rq.2.result = some b → rep a b = false)) := by
  induction l with
  | nil =>
    intro acc r a h
    left
    simp only [List.foldl_nil] at h
    simp [h]
  | cons x xs ih =>
    intro acc r a h
    rw [List.foldl_cons] at h
    rcases ih (quoteStep rep acc x) r a h with
      ⟨hacc, hrest⟩ | ⟨l1, rwin, q, l2, hsplit, hr, hq, haccrep, hl1, hl2⟩
    · -- the accumulator after processing x survived the rest of the list
      rcases hres : x.2.result with _ | c
      · left
        have hx : quoteStep rep acc x = acc := by simp [quoteStep, hres]
        refine ⟨hx ▸ hacc, ?_⟩
        intro rq hmem b hb
        rcases List.mem_cons.mp hmem with hEq | hmem2
        · exact (Option.some_ne_none b (hb ▸ hEq ▸ hres)).elim
        · exact hrest rq hmem2 b hb
      · rcases acc with ⟨r0, a0⟩
        rcases a0 with _ | best
        · -- x replaced the empty accumulator and then survived: x is the winner
          right
          have hx : quoteStep rep (r0, none) x = (some x.1, some c) := by
            simp [quoteStep, hres]
          rw [hx] at hacc
          have hra : r = some x.1 ∧ c = a := by
            have h1 := congrArg Prod.fst hacc
            have h2 := congrArg Prod.snd hacc
            simp at h1 h2
            exact ⟨h1.symm, h2⟩
          refine ⟨[], x.1, x.2, xs, by simp, hra.1, hra.2 ▸ hres, ?_, ?_, ?_⟩
          · intro b hb; simp at hb
          · intro rq hmem; simp at hmem
          · exact hrest
        · rcases hrep : rep best c with _ | _
          · -- x was rejected against best; the old accumulator is the winner
            left
            have hx : quoteStep rep (r0, some best) x = (r0, some best) := by
              simp [quoteStep, hres, hrep]
            rw [hx] at hacc
            have hba : best = a := by
              have h2 := congrArg Prod.snd hacc
              simpa using h2
            refine ⟨hacc, ?_⟩
            intro rq hmem b hb
            rcases List.mem_cons.mp hmem with hEq | hmem2
            · have : c = b := by
                have := hb ▸ hEq ▸ hres
                exact Option.some_injective Nat this.symm
              exact this ▸ hba ▸ hrep
            · exact hrest rq hmem2 b hb
          · -- x replaced best and then survived: x is the winner
            right
            have hx : quoteStep rep (r0, some best) x = (some x.1, some c) := by
              simp [quoteStep, hres, hrep]
            rw [hx] at hacc
            have hra : r = some x.1 ∧ c = a := by
              have h1 := congrArg Prod.fst hacc
              have h2 := congrArg Prod.snd hacc
              simp at h1 h2
              exact ⟨h1.symm, h2⟩
            refine ⟨[], x.1, x.2, xs, by simp, hra.1, hra.2 ▸ hres, ?_, ?_, ?_⟩
            · intro b hb
              have hbb : best = b := Option.some_injective Nat hb
              exact hbb ▸ hra.2 ▸ hrep
            · intro rq hmem; simp at hmem
            · exact hrest
    · -- the winner is inside xs
      right
      rcases hres : x.2.result with _ | c
      · have hx : quoteStep rep acc x = acc := by simp [quoteStep, hres]
        rw [hx] at haccrep
        refine ⟨x :: l1, rwin, q, l2, by simp [hsplit], hr, hq, haccrep, ?_, hl2⟩
        intro rq hmem b hb
        rcases List.mem_cons.mp hmem with hEq | hmem2
        · exact (Option.some_ne_none b (hb ▸ hEq ▸ hres)).elim
        · exact hl1 rq hmem2 b hb
      · rcases acc with ⟨r0, a0⟩
        rcases a0 with _ | best
        · have hx : quoteStep rep (r0, none) x = (some x.1, some c) := by
            simp [quoteStep, hres]
          rw [hx] at haccrep
          have hca : rep c a = true := haccrep c rfl
          refine ⟨x :: l1, rwin, q, l2, by simp [hsplit], hr, hq, ?_, ?_, hl2⟩
          · intro b hb; simp at hb
          · intro rq hmem b hb
            rcases List.mem_cons.mp hmem with hEq | hmem2
            · have : c = b :=
                Option.some_injective Nat ((hb ▸ hEq ▸ hres).symm)
              exact this ▸ hca
            · exact hl1 rq hmem2 b hb
        · rcases hrep : rep best c with _ | _
          · have hx : quoteStep rep (r0, some best) x = (r0, some best) := by
              simp [quoteStep, hres, hrep]
            rw [hx] at haccrep
            have hba : rep best a = true := haccrep best rfl
            refine ⟨x :: l1, rwin, q, l2, by simp [hsplit], hr, hq, ?_, ?_, hl2⟩
            · intro b hb
              have hbb : best = b := Option.some_injective Nat hb
              exact hbb ▸ hba
            · intro rq hmem b hb
              rcases List.mem_cons.mp hmem with hEq | hmem2
              · have hcb : c = b :=
                  Option.some_injective Nat ((hb ▸ hEq ▸ hres).symm)
                exact hcb ▸ hTF best c a hrep hba
              · exact hl1 rq hmem2 b hb
          · have hx : quoteStep rep (r0, some best) x = (some x.1, some c) := by
              simp [quoteStep, hres, hrep]
            rw [hx] at haccrep
            have hca : rep c a = true := haccrep c rfl
            refine ⟨x :: l1, rwin, q, l2, by simp [hsplit], hr, hq, ?_, ?_, hl2⟩
            · intro b hb
              have hbb : best = b := Option.some_injective Nat hb
              exact hbb ▸ hTr best c a hrep hca
            · intro rq hmem b hb
              rcases List.mem_cons.mp hmem with hEq | hmem2
              · have hcb : c = b :=
                  Option.some_injective Nat ((hb ▸ hEq ▸ hres).symm)
                exact hcb ▸ hca
              · exact hl1 rq hmem2 b hb

/-- Transitivity facts for the exact-in replacement order. -/
lemma replaceExactIn_trans :
    (∀ x y z : Nat, replaceExactIn x y = true → replaceExactIn y z = true →
      replaceExactIn x z = true) ∧
    (∀ x y z : Nat, replaceExactIn x y = false → replaceExactIn x z = true →
      replaceExactIn y z = true) := by
  constructor <;> intro x y z h1 h2 <;>
    simp only [replaceExactIn, decide_eq_true_eq, decide_eq_false_iff_not] at * <;>
    omega

/-- Transitivity facts for the exact-out replacement order. -/
lemma replaceExactOut_trans :
    (∀ x y z : Nat, replaceExactOut x y = true → replaceExactOut y z = true →
      replaceExactOut x z = true) ∧
    (∀ x y z : Nat, replaceExactOut x y = false → replaceExactOut x z = true →
      replaceExactOut y z = true) := by
  constructor <;> intro x y z h1 h2 <;>
    simp only [replaceExactOut, decide_eq_true_eq, decide_eq_false_iff_not] at * <;>
    omega

/-- Every member of the second list of a zip of equal-length lists appears in
the zip paired with some member of the first. -/
lemma mem_zip_right {α β : Type} :
    ∀ (l1 : List α) (l2 : List β), l1.length = l2.length →
      ∀ b ∈ l2, ∃ a, (a, b) ∈ l1.zip l2 := by
  intro l1
  induction l1 with
  | nil =>
    intro l2 hlen b hb
    rcases l2 with _ | ⟨c, l2⟩
    · simp at hb
    · simp at hlen
  | cons x xs ih =>
    intro l2 hlen b hb
    rcases l2 with _ | ⟨c, l2⟩
    · simp at hb
    · rcases List.mem_cons.mp hb with hEq | hmem
      · exact ⟨x, by simp [hEq]⟩
      · rcases ih l2 (by simpa using hlen) b hmem with ⟨a, ha⟩
        exact ⟨a, List.mem_cons_of_mem _ ha⟩

/-- A fold over pairs none of which carries a result stays at the empty
accumulator. -/
lemma foldl_quoteStep_all_none {ρ : Type} (rep : Nat → Nat → Bool)
    (l : List (ρ × QuoteResult)) (h : ∀ rq ∈ l, rq.2.result = none) :
    l.foldl (quoteStep rep) (none, none) = (none, none) := by
  rcases foldl_quoteStep_cases rep l with hf | ⟨r, w, hf⟩
  · exact hf
  · have h2 : (l.foldl (quoteStep rep) (none, none)).2 = none :=
      (foldl_quoteStep_eq_none rep l (none, none)).mpr ⟨rfl, h⟩
    rw [hf] at h2
    simp at h2

/-- If some index-aligned quote result is present, the fold produces a
winner. -/
lemma foldl_quoteStep_exists_winner {ρ : Type} (rep : Nat → Nat → Bool)
    (routes : List ρ) (qrs : List QuoteResult)
    (hlen : routes.length = qrs.length)
    (hp : (qrs.any fun q => q.result.isSome) = true) :
    ∃ r w, (routes.zip qrs).foldl (quoteStep rep) (none, none) =
      (some r, some w) := by
  rcases foldl_quoteStep_cases rep (routes.zip qrs) with hf | ⟨r, w, hf⟩
  · exfalso
    rcases List.any_eq_true.mp hp with ⟨q, hq, hqs⟩
    rcases mem_zip_right routes qrs hlen q hq with ⟨r2, hr2⟩
    have h2 : ((routes.zip qrs).foldl (quoteStep rep) (none, none)).2 = none := by
      rw [hf]
    have hqn : q.result = none :=
      ((foldl_quoteStep_eq_none rep (routes.zip qrs) (none, none)).mp
        h2).2 (r2, q) hr2
    rw [hqn] at hqs
    simp at hqs
  · exact ⟨r, w, hf⟩

/-- Every present amount in the batch relates to the fold's winning amount:
it is either kept against (`rep w b = false`), equal, or would be replaced by
the winner (`rep b w = true`). -/
lemma foldl_quoteStep_bounds {ρ : Type} (rep : Nat → Nat → Bool)
    (hTr : ∀ x y z : Nat, rep x y = true → rep y z = true → rep x z = true)
    (hTF : ∀ x y z : Nat, rep x y = false → rep x z = true → rep y z = true)
    (routes : List ρ) (qrs : List QuoteResult)
    (hlen : routes.length = qrs.length) (r : ρ) (w : Nat)
    (hf : (routes.zip qrs).foldl (quoteStep rep) (none, none) =
      (some r, some w)) :
    ∀ q ∈ qrs, ∀ b, q.result = some b →
      rep w b = false ∨ b = w ∨ rep b w = true := by
  rcases foldl_quoteStep_win rep hTr hTF (routes.zip qrs) (none, none)
      (some r) w hf with
    ⟨habs, _⟩ | ⟨l1, rwin, q0, l2, hsplit, _, hq0, _, hl1, hl2⟩
  · exact absurd (congrArg Prod.snd habs) (by simp)
  · intro q hq b hb
    rcases mem_zip_right routes qrs hlen q hq with ⟨r2, hr2⟩
    rw [hsplit] at hr2
    rcases List.mem_append.mp hr2 with h1 | h2
    · exact Or.inr (Or.inr (hl1 _ h1 b hb))
    · rcases List.mem_cons.mp h2 with hEq | h3
      · have hqq : q = q0 := congrArg Prod.snd hEq
        have : b = w := by
          have := hqq ▸ hb
          rw [this] at hq0
          exact Option.some_injective Nat hq0.symm ▸ rfl
        exact Or.inr (Or.inl this)
      · exact Or.inl (hl2 _ h3 b hb)

/-- Claim C5: for every input where the fixed amount or the counter-asset is
absent, each selector returns state INVALID with a null trade, independently
of the loading flag, the routes and the quote results. -/
theorem claim5_invalid_on_absent_inputs {γ ρ : Type}
    (amountIn : Option (CurrencyAmount γ)) (currencyOut : Option γ)
    (currencyIn : Option γ) (amountOut : Option (CurrencyAmount γ))
    (routesLoading : Bool) (routes : List ρ) (qrs : List QuoteResult) :
    (amountIn = none ∨ currencyOut = none →
      useBestV3TradeExactIn amountIn currencyOut routesLoading routes qrs =
        (V3TradeState.INVALID, none)) ∧
    (currencyIn = none ∨ amountOut = none →
      useBestV3TradeExactOut currencyIn amountOut routesLoading routes qrs =
        (V3TradeState.INVALID, none)) := by
  constructor
  · intro h
    rcases amountIn with _ | a
    · rcases currencyOut with _ | c <;> simp [useBestV3TradeExactIn]
    · rcases currencyOut with _ | c
      · simp [useBestV3TradeExactIn]
      · simp at h
  · intro h
    rcases amountOut with _ | a
    · rcases currencyIn with _ | c <;> simp [useBestV3TradeExactOut]
    · rcases currencyIn with _ | c
      · simp [useBestV3TradeExactOut]
      · simp at h

/-- Claim C5 witness at a concrete input. -/
theorem claim5_invalid_on_absent_inputs_witness :
    useBestV3TradeExactIn (γ := Nat) (ρ := Nat) none (some 1) false [7]
        [⟨some 5, false, false, true⟩] = (V3TradeState.INVALID, none) ∧
    useBestV3TradeExactOut (γ := Nat) (ρ := Nat) (some 1) none false [7]
        [⟨some 5, false, false, true⟩] = (V3TradeState.INVALID, none) :=
  ⟨(claim5_invalid_on_absent_inputs none (some 1) (some 1) none false [7]
      [⟨some 5, false, false, true⟩]).1 (Or.inl rfl),
   (claim5_invalid_on_absent_inputs none (some 1) (some 1) none false [7]
      [⟨some 5, false, false, true⟩]).2 (Or.inr rfl)⟩

/-- Claim C6: for every input, the returned trade is non-null exactly when
the returned state is VALID or SYNCING, for both selectors. -/
theorem claim6_trade_iff_valid_or_syncing {γ ρ : Type}
    (amountIn : Option (CurrencyAmount γ)) (currencyOut : Option γ)
    (currencyIn : Option γ) (amountOut : Option (CurrencyAmount γ))
    (routesLoading : Bool) (routes : List ρ) (qrs : List QuoteResult) :
    ((useBestV3TradeExactIn amountIn currencyOut routesLoading routes
        qrs).2.isSome = true ↔
      (useBestV3TradeExactIn amountIn currencyOut routesLoading routes
        qrs).1 = V3TradeState.VALID ∨
      (useBestV3TradeExactIn amountIn currencyOut routesLoading routes
        qrs).1 = V3TradeState.SYNCING) ∧
    ((useBestV3TradeExactOut currencyIn amountOut routesLoading routes
        qrs).2.isSome = true ↔
      (useBestV3TradeExactOut currencyIn amountOut routesLoading routes
        qrs).1 = V3TradeState.VALID ∨
      (useBestV3TradeExactOut currencyIn amountOut routesLoading routes
        qrs).1 = V3TradeState.SYNCING) := by
  constructor
  · rcases amountIn with _ | a
    · rcases currencyOut with _ | c <;> simp [useBestV3TradeExactIn]
    · rcases currencyOut with _ | c
      · simp [useBestV3TradeExactIn]
      · rcases hcond : (routesLoading || qrs.any fun q => q.loading) with _ | _
        · rcases foldl_quoteStep_cases replaceExactIn (routes.zip qrs) with
            hf | ⟨r, w, hf⟩
          · simp [useBestV3TradeExactIn, hcond, hf]
          · rcases hs : (qrs.any fun q => q.syncing) with _ | _ <;>
              simp [useBestV3TradeExactIn, hcond, hf, hs]
        · simp [useBestV3TradeExactIn, hcond]
  · rcases amountOut with _ | a
    · rcases currencyIn with _ | c <;> simp [useBestV3TradeExactOut]
    · rcases currencyIn with _ | c
      · simp [useBestV3TradeExactOut]
      · rcases hvalid : (qrs.any fun q => !q.valid) with _ | _
        · rcases hcond : (routesLoading || qrs.any fun q => q.loading) with _ | _
          · rcases foldl_quoteStep_cases replaceExactOut (routes.zip qrs) with
              hf | ⟨r, w, hf⟩
            · simp [useBestV3TradeExactOut, hvalid, hcond, hf]
            · rcases hs : (qrs.any fun q => q.syncing) with _ | _ <;>
                simp [useBestV3TradeExactOut, hvalid, hcond, hf, hs]
          · simp [useBestV3TradeExactOut, hvalid, hcond]
        · simp [useBestV3TradeExactOut, hvalid]

/-- Claim C10: with the fixed amount and counter-asset present and nothing
loading, an empty route sequence (hence empty result batch) yields
NO_ROUTE_FOUND with a null trade, for both selectors; and a batch whose
quotes all failed (no result present) is reported exactly the same way. -/
theorem claim10_empty_routes_no_route_found {γ ρ : Type}
    (a : CurrencyAmount γ) (c : γ) (ci : γ) (ao : CurrencyAmount γ)
    (routes : List ρ) (qrs : List QuoteResult) :
    (useBestV3TradeExactIn (some a) (some c) false ([] : List ρ) [] =
      (V3TradeState.NO_ROUTE_FOUND, none)) ∧
    (useBestV3TradeExactOut (some ci) (some ao) false ([] : List ρ) [] =
      (V3TradeState.NO_ROUTE_FOUND, none)) ∧
    ((∀ q ∈ qrs, q.result = none ∧ q.loading = false) →
      useBestV3TradeExactIn (some a) (some c) false routes qrs =
        (V3TradeState.NO_ROUTE_FOUND, none)) ∧
    ((∀ q ∈ qrs, q.result = none ∧ q.loading = false ∧ q.valid = true) →
      useBestV3TradeExactOut (some ci) (some ao) false routes qrs =
        (V3TradeState.NO_ROUTE_FOUND, none)) := by
  refine ⟨rfl, rfl, ?_, ?_⟩
  · intro h
    have hload : (qrs.any fun q => q.loading) = false := by
      rw [List.any_eq_false]
      intro q hq
      simp [(h q hq).2]
    have hfold : (routes.zip qrs).foldl (quoteStep replaceExactIn)
        (none, none) = (none, none) :=
      foldl_quoteStep_all_none _ _
        (fun rq hrq => (h rq.2 (List.of_mem_zip hrq).2).1)
    simp [useBestV3TradeExactIn, hload, hfold]
  · intro h
    have hload : (qrs.any fun q => q.loading) = false := by
      rw [List.any_eq_false]
      intro q hq
      simp [(h q hq).2.1]
    have hvalid : (qrs.any fun q => !q.valid) = false := by
      rw [List.any_eq_false]
      intro q hq
      simp [(h q hq).2.2]
    have hfold : (routes.zip qrs).foldl (quoteStep replaceExactOut)
        (none, none) = (none, none) :=
      foldl_quoteStep_all_none _ _
        (fun rq hrq => (h rq.2 (List.of_mem_zip hrq).2).1)
    simp [useBestV3TradeExactOut, hvalid, hload, hfold]

/-- Claim C10 witness at a concrete input. -/
theorem claim10_empty_routes_no_route_found_witness :
    (useBestV3TradeExactIn (γ := Nat) (ρ := Nat) (some ⟨0, 1⟩) (some 1) false
      [] [] = (V3TradeState.NO_ROUTE_FOUND, none)) ∧
    (useBestV3TradeExactIn (γ := Nat) (ρ := Nat) (some ⟨0, 1⟩) (some 1) false
      [5] [⟨none, false, false, true⟩] = (V3TradeState.NO_ROUTE_FOUND, none)) ∧
    (useBestV3TradeExactOut (γ := Nat) (ρ := Nat) (some 2) (some ⟨3, 4⟩) false
      [5] [⟨none, false, false, true⟩] =
        (V3TradeState.NO_ROUTE_FOUND, none)) :=
  ⟨(claim10_empty_routes_no_route_found (ρ := Nat) ⟨0, 1⟩ 1 2 ⟨3, 4⟩ [5]
      [⟨none, false, false, true⟩]).1,
   (claim10_empty_routes_no_route_found (ρ := Nat) ⟨0, 1⟩ 1 2 ⟨3, 4⟩ [5]
      [⟨none, false, false, true⟩]).2.2.1 (by decide),
   (claim10_empty_routes_no_route_found (ρ := Nat) ⟨0, 1⟩ 1 2 ⟨3, 4⟩ [5]
      [⟨none, false, false, true⟩]).2.2.2 (by decide)⟩

/-- Claim C8: with a chain id present, every dispatched quote request carries
the gas ceiling: the network-specific override (100,000,000 on zkEVM) when
configured, else the global default 2,000,000. -/
theorem claim8_gas_ceiling {γ : Type} (c : Nat) (routes : List (Route γ))
    (amtIn amtOut : Option (CurrencyAmount γ)) :
    (∀ req ∈ dispatchRequests (quoteExactInInputs routes amtIn)
        (gasRequired (some c)),
      req.gasRequired =
        some (if c = ChainId_ZKEVM then 100000000 else DEFAULT_GAS_QUOTE)) ∧
    (∀ req ∈ dispatchRequests (quoteExactOutInputs routes amtOut)
        (gasRequired (some c)),
      req.gasRequired =
        some (if c = ChainId_ZKEVM then 100000000 else DEFAULT_GAS_QUOTE)) ∧
    DEFAULT_GAS_QUOTE = 2000000 := by
  refine ⟨?_, ?_, rfl⟩ <;>
  · intro req hreq
    rcases List.mem_map.mp hreq with ⟨pa, _, hpa⟩
    rw [← hpa]
    by_cases hc : c = ChainId_ZKEVM <;>
      simp [gasRequired, QUOTE_GAS_OVERRIDES, hc]

/-- Claim C8 witness at concrete inputs (zkEVM and a non-override chain). -/
theorem claim8_gas_ceiling_witness :
    QuoteRequest.gasRequired (γ := Nat)
        ⟨[PathToken.asset 1, PathToken.fee 500, PathToken.asset 2], some 7,
          some 100000000⟩ =
      some (if 1101 = ChainId_ZKEVM then 100000000 else DEFAULT_GAS_QUOTE) ∧
    QuoteRequest.gasRequired (γ := Nat)
        ⟨[PathToken.asset 2, PathToken.fee 500, PathToken.asset 1], some 8,
          some 2000000⟩ =
      some (if 137 = ChainId_ZKEVM then 100000000 else DEFAULT_GAS_QUOTE) :=
  ⟨(claim8_gas_ceiling 1101 [⟨[1, 2], [500]⟩] (some ⟨0, 7⟩) (some ⟨0, 8⟩)).1
      _ (by decide),
   (claim8_gas_ceiling 137 [⟨[1, 2], [500]⟩] (some ⟨0, 7⟩) (some ⟨0, 8⟩)).2.1
      _ (by decide)⟩

/-- Claim C9: the exact-output encoding of a route is the exact-input
encoding reversed — it decodes to the same ordered asset and fee sequences
in reverse order — and the selectors always encode with flag `false` for
exact-in and `true` for exact-out. -/
theorem claim9_encoding_reversal {γ : Type} (route : Route γ)
    (routes : List (Route γ)) (amtIn amtOut : Option (CurrencyAmount γ)) :
    (encodeRouteToPath route true = (encodeRouteToPath route false).reverse) ∧
    (decodePathAssets (encodeRouteToPath route true) =
      (decodePathAssets (encodeRouteToPath route false)).reverse) ∧
    (decodePathFees (encodeRouteToPath route true) =
      (decodePathFees (encodeRouteToPath route false)).reverse) ∧
    ((quoteExactInInputs routes amtIn).map Prod.fst =
      routes.map fun r => encodeRouteToPath r false) ∧
    ((quoteExactOutInputs routes amtOut).map Prod.fst =
      routes.map fun r => encodeRouteToPath r true) := by
  refine ⟨?_, ?_, ?_, ?_, ?_⟩
  · simp [encodeRouteToPath]
  · simp [decodePathAssets, encodeRouteToPath, List.filterMap_reverse]
  · simp [decodePathFees, encodeRouteToPath, List.filterMap_reverse]
  · simp [quoteExactInInputs, List.map_map, Function.comp]
  · simp [quoteExactOutInputs, List.map_map, Function.comp]

/-- Claim C2 counterexample: the two selectors are not symmetric in their
precondition checks.  On mirrored inputs with the fixed amount and
counter-asset present, nothing loading, and one quote result that carries an
amount but has `valid = false`, the exact-output selector returns INVALID
while the exact-input selector does not: INVALID is not returned exactly
when the fixed amount or counter-asset is absent. -/
theorem claim2_counterexample :
    useBestV3TradeExactOut (γ := Nat) (ρ := Nat) (some 0) (some ⟨1, 10⟩) false
        [7] [⟨some 5, false, false, false⟩] = (V3TradeState.INVALID, none) ∧
    useBestV3TradeExactIn (γ := Nat) (ρ := Nat) (some ⟨1, 10⟩) (some 0) false
        [7] [⟨some 5, false, false, false⟩] ≠ (V3TradeState.INVALID, none) := by
  decide

/-- Claim C2 amended: the exact-input selector coincides with the generic
direction-parameterized selector everywhere; the exact-output selector
additionally returns INVALID whenever any quote result is invalid, and
otherwise coincides with the generic selector in the minimizing direction —
same check order, same reduction, same tie-break. -/
theorem claim2_amended_generic_refinement {γ ρ : Type}
    (amountIn : Option (CurrencyAmount γ)) (currencyOut : Option γ)
    (currencyIn : Option γ) (amountOut : Option (CurrencyAmount γ))
    (routesLoading : Bool) (routes : List ρ) (qrs : List QuoteResult) :
    (useBestV3TradeExactIn amountIn currencyOut routesLoading routes qrs =
      genericBestTrade SwapDir.exactIn amountIn currencyOut routesLoading
        routes qrs) ∧
    (useBestV3TradeExactOut currencyIn amountOut routesLoading routes qrs =
      if qrs.any fun q => !q.valid then (V3TradeState.INVALID, none)
      else genericBestTrade SwapDir.exactOut amountOut currencyIn
        routesLoading routes qrs) := by
  constructor
  · rcases amountIn with _ | a
    · rcases currencyOut with _ | c <;>
        simp [useBestV3TradeExactIn, genericBestTrade]
    · rcases currencyOut with _ | c
      · simp [useBestV3TradeExactIn, genericBestTrade]
      · rcases hcond : (routesLoading || qrs.any fun q => q.loading) with _ | _
        · rcases foldl_quoteStep_cases replaceExactIn (routes.zip qrs) with
            hf | ⟨r, w, hf⟩
          · simp [useBestV3TradeExactIn, genericBestTrade, replaceFor,
              hcond, hf]
          · simp [useBestV3TradeExactIn, genericBestTrade, replaceFor,
              mkTrade, hcond, hf]
        · simp [useBestV3TradeExactIn, genericBestTrade, hcond]
  · rcases hvalid : (qrs.any fun q => !q.valid) with _ | _
    · rcases amountOut with _ | a
      · rcases currencyIn with _ | c <;>
          simp [useBestV3TradeExactOut, genericBestTrade, hvalid]
      · rcases currencyIn with _ | c
        · simp [useBestV3TradeExactOut, genericBestTrade, hvalid]
        · rcases hcond : (routesLoading || qrs.any fun q => q.loading)
            with _ | _
          · rcases foldl_quoteStep_cases replaceExactOut (routes.zip qrs) with
              hf | ⟨r, w, hf⟩
            · simp [useBestV3TradeExactOut, genericBestTrade, replaceFor,
                hvalid, hcond, hf]
            · simp [useBestV3TradeExactOut, genericBestTrade, replaceFor,
                mkTrade, hvalid, hcond, hf]
          · simp [useBestV3TradeExactOut, genericBestTrade, hvalid, hcond]
    · rcases amountOut with _ | a
      · rcases currencyIn with _ | c <;>
          simp [useBestV3TradeExactOut, hvalid]
      · rcases currencyIn with _ | c <;>
          simp [useBestV3TradeExactOut, hvalid]

/-- Claim C3 counterexample: with the fixed amount and counter-asset present
and both the route enumeration and the batch entry loading, the exact-output
selector does not return LOADING when the entry is additionally marked
invalid — the invalid check preempts the loading check. -/
theorem claim3_counterexample :
    (useBestV3TradeExactOut (γ := Nat) (ρ := Nat) (some 0) (some ⟨1, 10⟩) true
        [7] [⟨none, true, false, false⟩]).1 ≠ V3TradeState.LOADING := by
  decide

/-- Claim C3 amended: with the fixed amount and counter-asset present, if the
route enumeration is loading or any quote result is loading, the exact-input
selector returns LOADING with a null trade; the exact-output selector does so
provided additionally every quote result is valid. -/
theorem claim3_amended_loading_precedence {γ ρ : Type}
    (a : CurrencyAmount γ) (c : γ) (ci : γ) (ao : CurrencyAmount γ)
    (routesLoading : Bool) (routes : List ρ) (qrs : List QuoteResult)
    (hl : (routesLoading || qrs.any fun q => q.loading) = true) :
    useBestV3TradeExactIn (some a) (some c) routesLoading routes qrs =
      (V3TradeState.LOADING, none) ∧
    ((qrs.any fun q => !q.valid) = false →
      useBestV3TradeExactOut (some ci) (some ao) routesLoading routes qrs =
        (V3TradeState.LOADING, none)) := by
  constructor
  · simp [useBestV3TradeExactIn, hl]
  · intro hv
    simp [useBestV3TradeExactOut, hv, hl]

/-- Claim C3 amended witness: two quote results, one resolved and one still
loading, give LOADING for both selectors. -/
theorem claim3_amended_loading_precedence_witness :
    useBestV3TradeExactIn (γ := Nat) (ρ := Nat) (some ⟨0, 10⟩) (some 1) false
        [7, 8] [⟨some 100, false, false, true⟩, ⟨none, true, false, true⟩] =
      (V3TradeState.LOADING, none) ∧
    useBestV3TradeExactOut (γ := Nat) (ρ := Nat) (some 2) (some ⟨3, 10⟩) false
        [7, 8] [⟨some 100, false, false, true⟩, ⟨none, true, false, true⟩] =
      (V3TradeState.LOADING, none) :=
  ⟨(claim3_amended_loading_precedence ⟨0, 10⟩ 1 2 ⟨3, 10⟩ false [7, 8]
      [⟨some 100, false, false, true⟩, ⟨none, true, false, true⟩]
      (by decide)).1,
   (claim3_amended_loading_precedence ⟨0, 10⟩ 1 2 ⟨3, 10⟩ false [7, 8]
      [⟨some 100, false, false, true⟩, ⟨none, true, false, true⟩]
      (by decide)).2 (by decide)⟩

/-- Claim C7: whenever the reduction produces a winner and the earlier
checks passed (nothing loading; for exact-out only, the code's all-valid
guard), the state is SYNCING exactly when any quote result in the batch is
syncing, else VALID, and the trade carries the winning route, the fixed
amount, and the quoted opposite-leg amount.  The exact-input conjunct does
not depend on the `valid` flags, which that selector never reads. -/
theorem claim7_winner_state_and_trade {γ ρ : Type}
    (a : CurrencyAmount γ) (c : γ) (ci : γ) (ao : CurrencyAmount γ)
    (routesLoading : Bool) (routes : List ρ) (qrs : List QuoteResult)
    (hl : (routesLoading || qrs.any fun q => q.loading) = false)
    (rIn : ρ) (wIn : Nat) (rOut : ρ) (wOut : Nat)
    (hwIn : (routes.zip qrs).foldl (quoteStep replaceExactIn) (none, none) =
      (some rIn, some wIn))
    (hwOut : (routes.zip qrs).foldl (quoteStep replaceExactOut) (none, none) =
      (some rOut, some wOut)) :
    useBestV3TradeExactIn (some a) (some c) routesLoading routes qrs =
      ((if qrs.any fun q => q.syncing then V3TradeState.SYNCING
        else V3TradeState.VALID),
       some ⟨rIn, TradeType.EXACT_INPUT, a, ⟨c, wIn⟩⟩) ∧
    ((qrs.any fun q => !q.valid) = false →
      useBestV3TradeExactOut (some ci) (some ao) routesLoading routes qrs =
        ((if qrs.any fun q => q.syncing then V3TradeState.SYNCING
          else V3TradeState.VALID),
         some ⟨rOut, TradeType.EXACT_OUTPUT, ⟨ci, wOut⟩, ao⟩)) := by
  constructor
  · simp [useBestV3TradeExactIn, hl, hwIn]
  · intro hv
    simp [useBestV3TradeExactOut, hv, hl, hwOut]

/-- Claim C7 witness: one syncing result in the batch yields SYNCING with the
populated trade for both selectors. -/
theorem claim7_winner_state_and_trade_witness :
    useBestV3TradeExactIn (γ := Nat) (ρ := Nat) (some ⟨0, 10⟩) (some 1) false
        [7, 8] [⟨some 5, false, true, true⟩, ⟨some 9, false, false, true⟩] =
      ((if [(⟨some 5, false, true, true⟩ : QuoteResult),
            ⟨some 9, false, false, true⟩].any fun q => q.syncing then
          V3TradeState.SYNCING else V3TradeState.VALID),
       some ⟨8, TradeType.EXACT_INPUT, ⟨0, 10⟩, ⟨1, 9⟩⟩) ∧
    useBestV3TradeExactOut (γ := Nat) (ρ := Nat) (some 2) (some ⟨3, 10⟩) false
        [7, 8] [⟨some 5, false, true, true⟩, ⟨some 9, false, false, true⟩] =
      ((if [(⟨some 5, false, true, true⟩ : QuoteResult),
            ⟨some 9, false, false, true⟩].any fun q => q.syncing then
          V3TradeState.SYNCING else V3TradeState.VALID),
       some ⟨7, TradeType.EXACT_OUTPUT, ⟨2, 5⟩, ⟨3, 10⟩⟩) :=
  ⟨(claim7_winner_state_and_trade ⟨0, 10⟩ 1 2 ⟨3, 10⟩ false [7, 8]
      [⟨some 5, false, true, true⟩, ⟨some 9, false, false, true⟩]
      (by decide) 8 9 7 5 (by decide) (by decide)).1,
   (claim7_winner_state_and_trade ⟨0, 10⟩ 1 2 ⟨3, 10⟩ false [7, 8]
      [⟨some 5, false, true, true⟩, ⟨some 9, false, false, true⟩]
      (by decide) 8 9 7 5 (by decide) (by decide)).2 (by decide)⟩

/-- Claim C1: with index-aligned routes and results, at least one present
result, the fixed amount and counter-asset defined and nothing loading, the
exact-input selector produces a trade whose output amount is ≥ every present
candidate output amount; symmetrically, any trade the exact-output selector
produces has input amount ≤ every present candidate input amount, and it
does produce one whenever every result is additionally valid. -/
theorem claim1_selector_optimality {γ ρ : Type}
    (a : CurrencyAmount γ) (c : γ) (ci : γ) (ao : CurrencyAmount γ)
    (routesLoading : Bool) (routes : List ρ) (qrs : List QuoteResult)
    (hlen : routes.length = qrs.length)
    (hl : (routesLoading || qrs.any fun q => q.loading) = false)
    (hp : (qrs.any fun q => q.result.isSome) = true) :
    (∃ t, (useBestV3TradeExactIn (some a) (some c) routesLoading routes
        qrs).2 = some t ∧
      ∀ q ∈ qrs, ∀ b, q.result = some b → b ≤ t.outputAmount.quotient) ∧
    (∀ t, (useBestV3TradeExactOut (some ci) (some ao) routesLoading routes
        qrs).2 = some t →
      ∀ q ∈ qrs, ∀ b, q.result = some b → t.inputAmount.quotient ≤ b) ∧
    ((qrs.any fun q => !q.valid) = false →
      ∃ t, (useBestV3TradeExactOut (some ci) (some ao) routesLoading routes
        qrs).2 = some t) := by
  obtain ⟨rIn, wIn, hfIn⟩ :=
    foldl_quoteStep_exists_winner replaceExactIn routes qrs hlen hp
  obtain ⟨rOut, wOut, hfOut⟩ :=
    foldl_quoteStep_exists_winner replaceExactOut routes qrs hlen hp
  refine ⟨⟨⟨rIn, TradeType.EXACT_INPUT, a, ⟨c, wIn⟩⟩, ?_, ?_⟩, ?_, ?_⟩
  · simp [useBestV3TradeExactIn, hl, hfIn]
  · intro q hq b hb
    have hbd := foldl_quoteStep_bounds replaceExactIn
      replaceExactIn_trans.1 replaceExactIn_trans.2 routes qrs hlen
      rIn wIn hfIn q hq b hb
    show b ≤ wIn
    rcases hbd with h1 | h2 | h3
    · simp [replaceExactIn] at h1; omega
    · omega
    · simp [replaceExactIn] at h3; omega
  · intro t ht
    rcases hvalid : (qrs.any fun q => !q.valid) with _ | _
    · have htt : t = ⟨rOut, TradeType.EXACT_OUTPUT, ⟨ci, wOut⟩, ao⟩ := by
        simp [useBestV3TradeExactOut, hvalid, hl, hfOut] at ht
        exact ht.symm
      subst htt
      intro q hq b hb
      have hbd := foldl_quoteStep_bounds replaceExactOut
        replaceExactOut_trans.1 replaceExactOut_trans.2 routes qrs hlen
        rOut wOut hfOut q hq b hb
      show wOut ≤ b
      rcases hbd with h1 | h2 | h3
      · simp [replaceExactOut] at h1; omega
      · omega
      · simp [replaceExactOut] at h3; omega
    · simp [useBestV3TradeExactOut, hvalid] at ht
  · intro hv
    exact ⟨⟨rOut, TradeType.EXACT_OUTPUT, ⟨ci, wOut⟩, ao⟩,
      by simp [useBestV3TradeExactOut, hv, hl, hfOut]⟩

/-- Claim C1 witness at a concrete input. -/
theorem claim1_selector_optimality_witness :
    (∃ t, (useBestV3TradeExactIn (γ := Nat) (ρ := Nat) (some ⟨0, 10⟩) (some 1)
        false [7, 8]
        [⟨some 5, false, false, true⟩, ⟨some 9, false, false, true⟩]).2 =
          some t ∧
      ∀ q ∈ [(⟨some 5, false, false, true⟩ : QuoteResult),
             ⟨some 9, false, false, true⟩], ∀ b, q.result = some b →
        b ≤ t.outputAmount.quotient) ∧
    (∀ t, (useBestV3TradeExactOut (γ := Nat) (ρ := Nat) (some 2) (some ⟨3, 10⟩)
        false [7, 8]
        [⟨some 5, false, false, true⟩, ⟨some 9, false, false, true⟩]).2 =
          some t →
      ∀ q ∈ [(⟨some 5, false, false, true⟩ : QuoteResult),
             ⟨some 9, false, false, true⟩], ∀ b, q.result = some b →
        t.inputAmount.quotient ≤ b) ∧
    (([(⟨some 5, false, false, true⟩ : QuoteResult),
       ⟨some 9, false, false, true⟩].any fun q => !q.valid) = false →
      ∃ t, (useBestV3TradeExactOut (γ := Nat) (ρ := Nat) (some 2)
        (some ⟨3, 10⟩) false [7, 8]
        [⟨some 5, false, false, true⟩, ⟨some 9, false, false, true⟩]).2 =
          some t) :=
  claim1_selector_optimality ⟨0, 10⟩ 1 2 ⟨3, 10⟩ false [7, 8]
    [⟨some 5, false, false, true⟩, ⟨some 9, false, false, true⟩]
    (by decide) (by decide) (by decide)

/-- Claim C4: whenever a selector returns a trade, the winning candidate
splits the index-aligned candidate sequence so that every earlier present
candidate is strictly worse and no later present candidate is strictly
better — so among numerically equal best amounts the earliest-enumerated
route wins. -/
theorem claim4_tie_break_stability {γ ρ : Type}
    (a : CurrencyAmount γ) (c : γ) (ci : γ) (ao : CurrencyAmount γ)
    (routesLoading : Bool) (routes : List ρ) (qrs : List QuoteResult) :
    (∀ t, (useBestV3TradeExactIn (some a) (some c) routesLoading routes
        qrs).2 = some t →
      ∃ pre q post, routes.zip qrs = pre ++ (t.route, q) :: post ∧
        q.result = some t.outputAmount.quotient ∧
        (∀ rq ∈ pre, ∀ b, rq.2.result = some b →
          b < t.outputAmount.quotient) ∧
        (∀ rq ∈ post, ∀ b, rq.2.result = some b →
          b ≤ t.outputAmount.quotient)) ∧
    (∀ t, (useBestV3TradeExactOut (some ci) (some ao) routesLoading routes
        qrs).2 = some t →
      ∃ pre q post, routes.zip qrs = pre ++ (t.route, q) :: post ∧
        q.result = some t.inputAmount.quotient ∧
        (∀ rq ∈ pre, ∀ b, rq.2.result = some b →
          t.inputAmount.quotient < b) ∧
        (∀ rq ∈ post, ∀ b, rq.2.result = some b →
          t.inputAmount.quotient ≤ b)) := by
  constructor
  · intro t ht
    rcases hcond : (routesLoading || qrs.any fun q => q.loading) with _ | _
    · rcases foldl_quoteStep_cases replaceExactIn (routes.zip qrs) with
        hf | ⟨r, w, hf⟩
      · simp [useBestV3TradeExactIn, hcond, hf] at ht
      · have htt : t = ⟨r, TradeType.EXACT_INPUT, a, ⟨c, w⟩⟩ := by
          simp [useBestV3TradeExactIn, hcond, hf] at ht
          exact ht.symm
        subst htt
        rcases foldl_quoteStep_win replaceExactIn replaceExactIn_trans.1
            replaceExactIn_trans.2 (routes.zip qrs) (none, none) (some r) w
            hf with ⟨habs, _⟩ | ⟨l1, rwin, q0, l2, hsplit, hr, hq0, _, hl1, hl2⟩
        · exact absurd (congrArg Prod.snd habs) (by simp)
        · have hrw : r = rwin := Option.some_injective ρ hr
          refine ⟨l1, q0, l2, ?_, hq0, ?_, ?_⟩
          · rw [hsplit, hrw]
          · intro rq hm b hb
            have h1 := hl1 rq hm b hb
            simp [replaceExactIn] at h1
            exact h1
          · intro rq hm b hb
            have h2 := hl2 rq hm b hb
            simp [replaceExactIn] at h2
            show b ≤ w
            omega
    · simp [useBestV3TradeExactIn, hcond] at ht
  · intro t ht
    rcases hvalid : (qrs.any fun q => !q.valid) with _ | _
    · rcases hcond : (routesLoading || qrs.any fun q => q.loading) with _ | _
      · rcases foldl_quoteStep_cases replaceExactOut (routes.zip qrs) with
          hf | ⟨r, w, hf⟩
        · simp [useBestV3TradeExactOut, hvalid, hcond, hf] at ht
        · have htt : t = ⟨r, TradeType.EXACT_OUTPUT, ⟨ci, w⟩, ao⟩ := by
            simp [useBestV3TradeExactOut, hvalid, hcond, hf] at ht
            exact ht.symm
          subst htt
          rcases foldl_quoteStep_win replaceExactOut replaceExactOut_trans.1
              replaceExactOut_trans.2 (routes.zip qrs) (none, none) (some r) w
              hf with ⟨habs, _⟩ | ⟨l1, rwin, q0, l2, hsplit, hr, hq0, _, hl1,
                hl2⟩
          · exact absurd (congrArg Prod.snd habs) (by simp)
          · have hrw : r = rwin := Option.some_injective ρ hr
            refine ⟨l1, q0, l2, ?_, hq0, ?_, ?_⟩
            · rw [hsplit, hrw]
            · intro rq hm b hb
              have h1 := hl1 rq hm b hb
              simp [replaceExactOut] at h1
              exact h1
            · intro rq hm b hb
              have h2 := hl2 rq hm b hb
              simp [replaceExactOut] at h2
              show w ≤ b
              omega
      · simp [useBestV3TradeExactOut, hvalid, hcond] at ht
    · simp [useBestV3TradeExactOut, hvalid] at ht

/-- Claim C4 witness: two candidates tied at the best amount — the selector
returns the one appearing earlier in the route sequence, for both
selectors. -/
theorem claim4_tie_break_stability_witness :
    (∃ pre q post,
      ([7, 8] : List Nat).zip
          [(⟨some 5, false, false, true⟩ : QuoteResult),
           ⟨some 5, false, false, true⟩] = pre ++ ((7 : Nat), q) :: post ∧
        q.result = some 5 ∧
        (∀ rq ∈ pre, ∀ b, rq.2.result = some b → b < 5) ∧
        (∀ rq ∈ post, ∀ b, rq.2.result = some b → b ≤ 5)) ∧
    (∃ pre q post,
      ([7, 8] : List Nat).zip
          [(⟨some 5, false, false, true⟩ : QuoteResult),
           ⟨some 5, false, false, true⟩] = pre ++ ((7 : Nat), q) :: post ∧
        q.result = some 5 ∧
        (∀ rq ∈ pre, ∀ b, rq.2.result = some b → 5 < b) ∧
        (∀ rq ∈ post, ∀ b, rq.2.result = some b → 5 ≤ b)) :=
  ⟨(claim4_tie_break_stability (γ := Nat) ⟨0, 10⟩ 1 2 ⟨3, 10⟩ false [7, 8]
      [⟨some 5, false, false, true⟩, ⟨some 5, false, false, true⟩]).1
      ⟨7, TradeType.EXACT_INPUT, ⟨0, 10⟩, ⟨1, 5⟩⟩ (by decide),
   (claim4_tie_break_stability (γ := Nat) ⟨0, 10⟩ 1 2 ⟨3, 10⟩ false [7, 8]
      [⟨some 5, false, false, true⟩, ⟨some 5, false, false, true⟩]).2
      ⟨7, TradeType.EXACT_OUTPUT, ⟨2, 5⟩, ⟨3, 10⟩⟩ (by decide)⟩

end BestV3Trade
